import Mathlib

/-!
Verification of the keyed shared-memory buffer pool allocator
(`MultiPool` in `src/shm/pool/multi.rs`).

The embedding below is a direct shallow translation of the Rust source:

* `Handle` models a `wl_buffer::WlBuffer` protocol object together with the
  `(offset, width, height, stride, format)` tuple it was created with and the
  identity (`flag`) of the shared `Arc<AtomicBool>` release flag captured by
  its `BufferObjectData` at creation time.  Handles are identified by a
  freshly allocated numeric `id`.
* `Alloc` models `BufferAllocation<K>`: the shared free flag is split into its
  current boolean value (`free`) and the identity of the shared cell
  (`flagId`), `size` is the capacity field, `used`, `offset`, `buffer`,
  `format` and `key` are as in the source.
* `Pool` models `MultiPool<K>` together with the `RawPool` it owns: `len` is
  the current committed size of the raw memory region, `limit` models the
  point at which `RawPool::resize` reports an io error (growth beyond `limit`
  fails), `nextId`/`nextFlag` generate fresh handle ids and fresh shared-flag
  cells, and `log` records the ids of every handle on which `destroy` has
  been invoked.
* Machine integers: all quantities are `Nat` with the explicit `i32::MAX`
  bound `MAX` checked exactly where the source checks it; the source's
  checked multiplications reject any product exceeding `MAX` (both the
  `None` overflow case and the `Some(v) if v > MAX` case collapse to
  `MAX < product` over `Nat`).
* `todo!()` (reached by the source on invalid geometry) and out-of-bounds
  slice indexing are modelled by the distinguished `panic` outcomes.
-/

/-- A remote buffer object: fresh id plus the binding it was created with. -/
structure Handle where
  id : Nat
  offset : Nat
  width : Nat
  height : Nat
  stride : Nat
  format : Nat
  flag : Nat
deriving DecidableEq, Repr

/-- `BufferAllocation<K>` from the source: `free` is the current value of the
shared `Arc<AtomicBool>`, `flagId` identifies that shared cell, `size` is the
capacity of the allocation, `used` the bytes consumed by the most recent
buffer, `offset` the byte offset inside the pool, `buffer` the optional live
protocol object. -/
structure Alloc (K : Type) where
  free : Bool
  flagId : Nat
  size : Nat
  used : Nat
  offset : Nat
  buffer : Option Handle
  format : Nat
  key : K
deriving DecidableEq, Repr

/-- `MultiPool<K>` together with its `RawPool`: `bufferList` is the allocation
table, `len` the committed size of the raw region, `limit` the size beyond
which `RawPool::resize` fails with an io error, `nextId`/`nextFlag` fresh-name
counters, `log` the ids of all destroyed handles. -/
structure Pool (K : Type) where
  bufferList : List (Alloc K)
  len : Nat
  limit : Nat
  nextId : Nat
  nextFlag : Nat
  log : List Nat
deriving DecidableEq, Repr

variable {K : Type}

/-- `i32::MAX as u32`, the bound `MAX` in `create_buffer`. -/
def MAX : Nat := 2147483647

/-- `buffer.destroy(conn)` bookkeeping: record the destroyed handle id. -/
def destroyIds (b : Option Handle) (log : List Nat) : List Nat :=
  match b with
  | some hb => log ++ [hb.id]
  | none => log

/-- The capacity padding computed at `multi.rs:241-246`:
`let size = size + size / 20; size + 4 - size % 4`. -/
def padSize (size : Nat) : Nat :=
  let s := size + size / 20
  s + 4 - s % 4

/-- Result of the scan loop `multi.rs:228-268`: the (mutated) table, the final
running `offset` (frontier), the `found_key` flag, the recorded `index`, and
the accumulated destruction log. -/
structure ScanRes (K : Type) where
  list : List (Alloc K)
  offset : Nat
  found : Bool
  index : Option Nat
  log : List Nat
deriving Repr

/-- The scan loop of `create_buffer` (`multi.rs:228-268`), translated branch
by branch.  Arguments after the table are the running `offset`, `found_key`,
`index`, the enumeration position `i` and the destruction log. -/
def scan [DecidableEq K] (key : K) (size : Nat) :
    List (Alloc K) → Nat → Bool → Option Nat → Nat → List Nat → ScanRes K
  | [], off, found, idx, _i, log => ⟨[], off, found, idx, log⟩
  | bh :: rest, off, found, idx, i, log =>
    if bh.key = key then
      if bh.free then
        -- lines 231-248: destroy the handle if resized, raise capacity, set used
        let buf2 := if size = bh.used then bh.buffer else none
        let log2 := if size = bh.used then log else destroyIds bh.buffer log
        let bh2 : Alloc K :=
          { bh with buffer := buf2, size := max bh.size (padSize size), used := size }
        let r := scan key size rest (off + bh2.size) true (some i) (i + 1) log2
        { r with list := bh2 :: r.list }
      else
        -- busy match: only found_key is set
        let r := scan key size rest (off + bh.size) true idx (i + 1) log
        { r with list := bh :: r.list }
    else if bh.offset < off then
      if bh.free then
        -- lines 253-259: shift the free allocation forward, destroying its handle
        let buf2 := if off = bh.offset then bh.buffer else none
        let log2 := if off = bh.offset then log else destroyIds bh.buffer log
        let bh2 : Alloc K := { bh with buffer := buf2, offset := off }
        let r := scan key size rest (off + bh.size) found idx (i + 1) log2
        { r with list := bh2 :: r.list }
      else
        -- lines 260-263: a busy allocation would have to move: index = None
        let r := scan key size rest (off + bh.size) found none (i + 1) log
        { r with list := bh :: r.list }
    else if found then
      -- lines 264-266: break
      ⟨bh :: rest, off, found, idx, log⟩
    else
      let r := scan key size rest (off + bh.size) found idx (i + 1) log
      { r with list := bh :: r.list }

/-- The append-offset computation of `multi.rs:273-277`: 5% of the last
allocation's capacity, then `offset += 4 - offset % 4`. -/
def padAppend (off : Nat) (l : List (Alloc K)) : Nat :=
  match l.getLast? with
  | none => off
  | some b =>
    let o := off + b.size / 20
    o + (4 - o % 4)

/-- The pool-growth step `multi.rs:279-284`: if `offset + size >= len` the
raw pool is resized to `offset + size + size / 20` (monotonic growth; failure,
modelled by exceeding `limit`, aborts the call).  Returns the new length. -/
def growLen (p : Pool K) (off size : Nat) : Option Nat :=
  if p.len ≤ off + size then
    if off + size + size / 20 ≤ p.limit then some (max p.len (off + size + size / 20))
    else none
  else some p.len

/-- Outcome of `create_buffer`: `panic` models reaching a `todo!()` or an
out-of-bounds slice index, `fail` returns `None` with the table in the state
the aborted call left it, `success` carries the new pool state, the returned
offset and the returned buffer handle. -/
inductive CreateResult (K : Type) where
  | panic
  | fail (p : Pool K)
  | success (p : Pool K) (offset : Nat) (buffer : Handle)
deriving DecidableEq, Repr

/-- `MultiPool::create_buffer` (`multi.rs:173-347`), translated line by line:
geometry validation, the scan, offset determination, pool growth, handle
creation / reuse / append, and the final `free.swap(false)`. -/
def createBuffer [DecidableEq K] (width height bpp : Nat) (key : K) (format : Nat)
    (p : Pool K) : CreateResult K :=
  -- lines 191-193
  if MAX < width ∨ MAX < height ∨ MAX < bpp then .panic
  else
    -- lines 195-203: checked_mul with the `> MAX` guard
    let stride := width * bpp
    if MAX < stride then .panic
    -- lines 207-209
    else if stride < width then .panic
    else
      -- lines 211-219
      let size := stride * height
      if MAX < size then .panic
      else
        let r := scan key size p.bufferList 0 false none 0 p.log
        if r.found then
          -- line 272: `offset = self.buffer_list[index?].offset`
          match r.index with
          | none => .fail { p with bufferList := r.list, log := r.log }
          | some i =>
            match r.list.get? i with
            | none => .panic
            | some bh =>
              let off := bh.offset
              match growLen p off size with
              | none => .fail { p with bufferList := r.list, log := r.log }
              | some len2 =>
                -- lines 288-311: reuse the live handle or create a fresh one
                match bh.buffer with
                | some hbuf =>
                  if len2 < off + size then .panic
                  else
                    .success
                      { p with bufferList := r.list.set i { bh with free := false },
                               len := len2, log := r.log }
                      off hbuf
                | none =>
                  let hbuf : Handle :=
                    ⟨p.nextId, off, width, height, stride, format, bh.flagId⟩
                  if len2 < off + size then .panic
                  else
                    .success
                      { p with
                          bufferList :=
                            r.list.set i { bh with buffer := some hbuf, free := false },
                          len := len2, nextId := p.nextId + 1, log := r.log }
                      off hbuf
        else
          -- lines 273-277: pad the frontier past the last allocation
          let off := padAppend r.offset r.list
          match growLen p off size with
          | none => .fail { p with bufferList := r.list, log := r.log }
          | some len2 =>
            if r.index.isNone then
              -- lines 312-337: append a fresh allocation (`used: 0`)
              let hbuf : Handle :=
                ⟨p.nextId, off, width, height, stride, format, p.nextFlag⟩
              let newAlloc : Alloc K := ⟨true, p.nextFlag, size, 0, off, some hbuf, format, key⟩
              if len2 < off + size then .panic
              else
                .success
                  { p with
                      bufferList :=
                        (r.list ++ [newAlloc]).set r.list.length
                          { newAlloc with free := false },
                      len := len2, nextId := p.nextId + 1,
                      nextFlag := p.nextFlag + 1, log := r.log }
                  off hbuf
            else .fail { p with bufferList := r.list, log := r.log }

/-- `iter().enumerate().find(|(_, b)| b.key.eq(key))`: first allocation with
the given key, together with its index. -/
def findKey [DecidableEq K] (key : K) : List (Alloc K) → Option (Nat × Alloc K)
  | [] => none
  | a :: rest =>
    if a.key = key then some (0, a)
    else (findKey key rest).map (fun q => (q.1 + 1, q.2))

/-- The rearrangement walk of `MultiPool::remove` (`multi.rs:149-158`): while
the scanned allocation sits past the running offset and is free, destroy its
handle and `mem::swap` its offset with the running offset; stop at the first
allocation violating the condition. -/
def removeWalk : Nat → List (Alloc K) → List Nat → List (Alloc K) × List Nat
  | _off, [], log => ([], log)
  | off, bh :: rest, log =>
    if off < bh.offset ∧ bh.free = true then
      let log2 := destroyIds bh.buffer log
      let w := removeWalk bh.offset rest log2
      ({ bh with buffer := none, offset := off } :: w.1, w.2)
    else (bh :: rest, log)

/-- `MultiPool::remove` (`multi.rs:143-160`). -/
def remove [DecidableEq K] (key : K) (p : Pool K) : Pool K :=
  match findKey key p.bufferList with
  | none => p
  | some (i, a) =>
    let w := removeWalk a.offset (p.bufferList.eraseIdx i) p.log
    { p with bufferList := w.1, log := w.2 }

/-- Outcome of `acquire_buffer`: the two `BufferAccessError` variants, the
slice-index panic, or success carrying the new pool and the returned slice's
offset and length within the mapping. -/
inductive AcquireResult (K : Type) where
  | invalidKey
  | inUse
  | panic
  | ok (p : Pool K) (offset : Nat) (size : Nat)
deriving DecidableEq, Repr

/-- `MultiPool::acquire_buffer` (`multi.rs:409-426`): find the allocation,
fail `InvalidKey`/`InUse`, slice `mmap[offset..][..size]` (panicking when the
range exceeds the mapping) and swap the flag to busy. -/
def acquireBuffer [DecidableEq K] (key : K) (p : Pool K) : AcquireResult K :=
  match findKey key p.bufferList with
  | none => .invalidKey
  | some (i, a) =>
    if a.free = false then .inUse
    else if p.len < a.offset + a.size then .panic
    else .ok { p with bufferList := p.bufferList.set i { a with free := false } }
        a.offset a.size

/-- Effect of `self.free.store(true, ..)` on one table entry: the allocation
whose shared cell is `f` becomes free, every other entry is untouched. -/
def releaseFlag (f : Nat) (a : Alloc K) : Alloc K :=
  if a.flagId = f then { a with free := true } else a

/-- `BufferObjectData::event` (`multi.rs:449-463`): a `wl_buffer.release`
notification stores `true` into the shared flag cell captured when the handle
was created; on the table this sets `free := true` on the allocation(s) whose
`flagId` is that cell. -/
def deliverRelease (f : Nat) (p : Pool K) : Pool K :=
  { p with bufferList := p.bufferList.map (releaseFlag f) }

/-- Sum of the capacities of a table, the value of the running frontier after
a scan that shifts nothing. -/
def sumSizes (l : List (Alloc K)) : Nat := (l.map fun a => a.size).sum

/-- The offset at which a fresh allocation is appended, as computed by
`create_buffer` on a table not containing the key. -/
def appendOffset (l : List (Alloc K)) : Nat := padAppend (sumSizes l) l

/-- Byte ranges `[offset, offset + size)` of two allocations are disjoint. -/
def rangesDisjoint (a b : Alloc K) : Bool :=
  decide (a.offset + a.size ≤ b.offset) || decide (b.offset + b.size ≤ a.offset)

/-- Every pair of distinct allocations in the table occupies disjoint ranges. -/
def tableDisjoint : List (Alloc K) → Bool
  | [] => true
  | a :: rest => rest.all (rangesDisjoint a) && tableDisjoint rest

/-- The empty pool produced by `ShmState::new_multi` (`multi.rs:441`), with a
large io limit for the raw region. -/
def pool0 : Pool Nat := ⟨[], 0, 1000000, 0, 0, []⟩

/-! ### Concrete traces used as failing inputs and counterexamples -/

/-- Allocation for key 0 after `create_buffer(4, 4, 1)` on the empty pool. -/
def allocA : Alloc Nat := ⟨false, 0, 16, 0, 0, some ⟨0, 0, 4, 4, 4, 0, 0⟩, 0, 0⟩

/-- Allocation for key 1 after a subsequent `create_buffer(10, 10, 1)`. -/
def allocB : Alloc Nat := ⟨false, 1, 100, 0, 20, some ⟨1, 20, 10, 10, 10, 0, 1⟩, 0, 1⟩

/-- Allocation for key 2 after a further `create_buffer(4, 4, 1)`. -/
def allocC : Alloc Nat := ⟨false, 2, 16, 0, 124, some ⟨2, 124, 4, 4, 4, 0, 2⟩, 0, 2⟩

/-- Pool after `create_buffer(4, 4, 1, key 0)` on the empty pool. -/
def poolA : Pool Nat := ⟨[allocA], 16, 1000000, 1, 1, []⟩

/-- Pool after the second call, `create_buffer(10, 10, 1, key 1)`. -/
def poolAB : Pool Nat := ⟨[allocA, allocB], 125, 1000000, 2, 2, []⟩

/-- Pool after the third call, `create_buffer(4, 4, 1, key 2)`. -/
def poolABC : Pool Nat := ⟨[allocA, allocB, allocC], 140, 1000000, 3, 3, []⟩

/-- Pool after releasing keys 1 and 2 and then removing key 0: the compaction
walk swaps offsets pairwise, leaving key 1 at `[0, 100)` and key 2 at
`[20, 36)`. -/
def poolOverlap : Pool Nat :=
  ⟨[⟨true, 1, 100, 0, 0, none, 0, 1⟩, ⟨true, 2, 16, 0, 20, none, 0, 2⟩],
    140, 1000000, 3, 3, [1, 2]⟩

/-- C1 (code bug): a reachable sequence of operations — three `create_buffer`
calls, two release deliveries and one `remove` — produces two live allocations
whose `[offset, offset + capacity)` ranges overlap: the removal walk swaps the
removed offset 0 into key 1's slot (capacity 100) and key 1's old offset 20
into key 2's slot, so `[0, 100)` and `[20, 36)` intersect.  The claimed
non-overlap invariant is violated by the code. -/
theorem c1_overlap_reachable :
    createBuffer 4 4 1 0 0 pool0 = .success poolA 0 ⟨0, 0, 4, 4, 4, 0, 0⟩ ∧
    createBuffer 10 10 1 1 0 poolA = .success poolAB 20 ⟨1, 20, 10, 10, 10, 0, 1⟩ ∧
    createBuffer 4 4 1 2 0 poolAB = .success poolABC 124 ⟨2, 124, 4, 4, 4, 0, 2⟩ ∧
    remove 0 (deliverRelease 2 (deliverRelease 1 poolABC)) = poolOverlap ∧
    tableDisjoint poolOverlap.bufferList = false := by
  refine ⟨by decide, by decide, by decide, by decide, by decide⟩

/-- C2 (code bug): geometry that the specification says must fail with
`InvalidShape` instead reaches a `todo!()` and panics — both for a width
beyond `i32::MAX` and for a `stride*height` product beyond `i32::MAX`.  The
table cannot be left in any state at all: the call never returns. -/
theorem c2_invalid_shape_panics :
    createBuffer 2147483648 1 1 (0 : Nat) 0 pool0 = .panic ∧
    createBuffer 65536 65536 1 (0 : Nat) 0 pool0 = .panic := by
  refine ⟨by decide, by decide⟩

/-- C3 (code bug): removing key 1 (the middle allocation) while key 2 — a free
allocation lying after it — is shiftable compacts nothing: the walk starts at
the head of the table, key 0's offset 0 is not greater than the removed offset
20, so the loop breaks immediately and key 2 stays at offset 124.  The claim
says every free allocation after the removed one is shifted backward. -/
theorem c3_remove_no_compaction :
    deliverRelease 2 poolABC =
      ⟨[allocA, allocB, { allocC with free := true }], 140, 1000000, 3, 3, []⟩ ∧
    remove 1 (deliverRelease 2 poolABC) =
      ⟨[allocA, { allocC with free := true }], 140, 1000000, 3, 3, []⟩ ∧
    (remove 1 (deliverRelease 2 poolABC)).bufferList.map (fun a => a.offset) = [0, 124] := by
  refine ⟨by decide, by decide, by decide⟩

/-- Allocation for key 0 after `create_buffer(10, 10, 1)` on the empty pool. -/
def allocK0 : Alloc Nat := ⟨false, 0, 100, 0, 0, some ⟨0, 0, 10, 10, 10, 0, 0⟩, 0, 0⟩

/-- Pool after `create_buffer(10, 10, 1, key 0)` on the empty pool. -/
def poolOne : Pool Nat := ⟨[allocK0], 105, 1000000, 1, 1, []⟩

/-- Pool after a further `create_buffer(10, 10, 1, key 1)`. -/
def poolTwo : Pool Nat :=
  ⟨[allocK0, ⟨false, 1, 100, 0, 108, some ⟨1, 108, 10, 10, 10, 0, 1⟩, 0, 1⟩],
    213, 1000000, 2, 2, []⟩

/-- C4 counterexample: ` create_buffer(20, 4, 1)` (size 80) then
`create_buffer(4, 4, 1)` for a fresh key.  The claim predicts the new
allocation at offset 84 (frontier 80 plus 5% padding, 4-byte aligned) with
`capacity = used = 16`; the code appends it at offset 88 (the alignment step
`offset += 4 - offset % 4` always strictly increases an already aligned
offset) and stores `used = 0`, not 16. -/
theorem c4_counterexample :
    createBuffer 20 4 1 0 0 pool0 =
      .success ⟨[⟨false, 0, 80, 0, 0, some ⟨0, 0, 20, 4, 20, 0, 0⟩, 0, 0⟩],
        84, 1000000, 1, 1, []⟩ 0 ⟨0, 0, 20, 4, 20, 0, 0⟩ ∧
    createBuffer 4 4 1 1 0
        ⟨[⟨false, 0, 80, 0, 0, some ⟨0, 0, 20, 4, 20, 0, 0⟩, 0, 0⟩],
          84, 1000000, 1, 1, []⟩ =
      .success ⟨[⟨false, 0, 80, 0, 0, some ⟨0, 0, 20, 4, 20, 0, 0⟩, 0, 0⟩,
          ⟨false, 1, 16, 0, 88, some ⟨1, 88, 4, 4, 4, 0, 1⟩, 0, 1⟩],
        104, 1000000, 2, 2, []⟩ 88 ⟨1, 88, 4, 4, 4, 0, 1⟩ := by
  refine ⟨by decide, by decide⟩

/-- C5 counterexample: keys 0 and 1 are created, key 0 is released, and key 0
is re-requested with a larger shape (25 by 10).  The grown key 0 would overlap
the busy key 1, so the call fails (`InUse`) — but the table is not left
unchanged: key 0's capacity has grown from 100 to 264, its `used` from 0 to
250, and its handle has been destroyed. -/
theorem c5_counterexample :
    createBuffer 10 10 1 0 0 pool0 = .success poolOne 0 ⟨0, 0, 10, 10, 10, 0, 0⟩ ∧
    createBuffer 10 10 1 1 0 poolOne =
      .success poolTwo 108 ⟨1, 108, 10, 10, 10, 0, 1⟩ ∧
    createBuffer 25 10 1 0 0 (deliverRelease 0 poolTwo) =
      .fail ⟨[⟨true, 0, 264, 250, 0, none, 0, 0⟩,
          ⟨false, 1, 100, 0, 108, some ⟨1, 108, 10, 10, 10, 0, 1⟩, 0, 1⟩],
        213, 1000000, 2, 2, [0]⟩ ∧
    (deliverRelease 0 poolTwo).bufferList ≠
      [⟨true, 0, 264, 250, 0, none, 0, 0⟩,
       ⟨false, 1, 100, 0, 108, some ⟨1, 108, 10, 10, 10, 0, 1⟩, 0, 1⟩] := by
  refine ⟨by decide, by decide, by decide, by decide⟩

/-- Pool holding key 0 with `used = 100` and a live handle (id 1) bound to
`(offset 0, width 10, height 10, stride 10, format 0)`, reached by creating
key 0 twice with the same 10 by 10 shape (with a release in between). -/
def poolRebound : Pool Nat :=
  ⟨[⟨false, 0, 108, 100, 0, some ⟨1, 0, 10, 10, 10, 0, 0⟩, 0, 0⟩],
    105, 1000000, 2, 1, [0]⟩

/-- C6 counterexample: after key 0 holds a handle bound to
`(0, 10, 10, 10, format 0)` with `used = 100`, a request for 20 by 5 with
format 7 — same byte size 100, different shape and format — returns that very
handle unchanged, because the code only destroys the handle when
`size != used`.  The claim says the previously bound handle is never returned
for a different shape or format. -/
theorem c6_counterexample :
    createBuffer 10 10 1 0 0 pool0 = .success poolOne 0 ⟨0, 0, 10, 10, 10, 0, 0⟩ ∧
    createBuffer 10 10 1 0 0 (deliverRelease 0 poolOne) =
      .success poolRebound 0 ⟨1, 0, 10, 10, 10, 0, 0⟩ ∧
    createBuffer 20 5 1 0 7 (deliverRelease 0 poolRebound) =
      .success ⟨[⟨false, 0, 108, 100, 0, some ⟨1, 0, 10, 10, 10, 0, 0⟩, 0, 0⟩],
        105, 1000000, 2, 1, [0]⟩ 0 ⟨1, 0, 10, 10, 10, 0, 0⟩ := by
  refine ⟨by decide, by decide, by decide⟩

/-- Pool holding key 0 with capacity 212 at offset 0 while the committed
region length is only 210: reached by creating key 0 at 10 by 10, releasing,
and re-creating at 20 by 10 (the pool grows to `used + 5%` = 210, less than
the padded capacity 212). -/
def poolShort : Pool Nat :=
  ⟨[⟨false, 0, 212, 200, 0, some ⟨1, 0, 20, 10, 20, 0, 0⟩, 0, 0⟩],
    210, 1000000, 2, 1, [0]⟩

/-- C7 counterexample: after a successful `create_buffer` the live allocation
for key 0 has `offset + capacity = 212` while `committed_size = 210` — the
pool is grown only to `target_offset + used + 5%`, which does not cover the
allocation's full (padded) capacity. -/
theorem c7_counterexample :
    createBuffer 10 10 1 0 0 pool0 = .success poolOne 0 ⟨0, 0, 10, 10, 10, 0, 0⟩ ∧
    createBuffer 20 10 1 0 0 (deliverRelease 0 poolOne) =
      .success poolShort 0 ⟨1, 0, 20, 10, 20, 0, 0⟩ ∧
    poolShort.bufferList.get? 0 =
      some ⟨false, 0, 212, 200, 0, some ⟨1, 0, 20, 10, 20, 0, 0⟩, 0, 0⟩ ∧
    poolShort.len < 0 + 212 := by
  refine ⟨by decide, by decide, by decide, by decide⟩

/-- C8 counterexample: on the reachable pool `poolShort` (after releasing key
0), the allocation for key 0 exists and is free, yet `acquire_buffer` neither
succeeds nor returns an error: slicing `mmap[0..][..212]` on the 210-byte
mapping panics.  The claim says a free, existing key always yields the
writable slice. -/
theorem c8_counterexample :
    findKey 0 (deliverRelease 0 poolShort).bufferList =
      some (0, ⟨true, 0, 212, 200, 0, some ⟨1, 0, 20, 10, 20, 0, 0⟩, 0, 0⟩) ∧
    acquireBuffer 0 (deliverRelease 0 poolShort) = .panic := by
  refine ⟨by decide, by decide⟩

/-! ### Helper lemmas about the embedded operations -/

theorem releaseFlag_idem (f : Nat) (a : Alloc K) :
    releaseFlag f (releaseFlag f a) = releaseFlag f a := by
  unfold releaseFlag
  by_cases hf : a.flagId = f <;> simp [hf]

theorem findKey_eq_none [DecidableEq K] (key : K) (l : List (Alloc K)) :
    findKey key l = none ↔ ∀ a ∈ l, a.key ≠ key := by
  induction l with
  | nil => simp [findKey]
  | cons b rest ih =>
    unfold findKey
    by_cases hb : b.key = key
    · simp [hb]
    · simp [hb, Option.map_eq_none', ih]

theorem findKey_some [DecidableEq K] {key : K} :
    ∀ {l : List (Alloc K)} {i : Nat} {a : Alloc K},
      findKey key l = some (i, a) → l.get? i = some a ∧ a.key = key := by
  intro l
  induction l with
  | nil => intro i a h; simp [findKey] at h
  | cons b rest ih =>
    intro i a h
    by_cases hb : b.key = key
    · simp only [findKey, if_pos hb, Option.some.injEq, Prod.mk.injEq] at h
      obtain ⟨hi, ha⟩ := h
      subst hi; subst ha
      exact ⟨rfl, hb⟩
    · simp only [findKey, if_neg hb, Option.map_eq_some'] at h
      obtain ⟨q, hq, heq⟩ := h
      rw [Prod.mk.injEq] at heq
      obtain ⟨hi, ha⟩ := heq
      subst hi; subst ha
      obtain ⟨hg, hk⟩ := ih hq
      exact ⟨by simpa using hg, hk⟩

theorem findKey_set [DecidableEq K] {key : K} :
    ∀ {l : List (Alloc K)} {i : Nat} {a a2 : Alloc K},
      findKey key l = some (i, a) → a2.key = a.key →
      findKey key (l.set i a2) = some (i, a2) := by
  intro l
  induction l with
  | nil => intro i a a2 h; simp [findKey] at h
  | cons b rest ih =>
    intro i a a2 h hk
    by_cases hb : b.key = key
    · simp only [findKey, if_pos hb, Option.some.injEq, Prod.mk.injEq] at h
      obtain ⟨hi, ha⟩ := h
      subst hi; subst ha
      simp [List.set, findKey, hk.trans hb]
    · simp only [findKey, if_neg hb, Option.map_eq_some'] at h
      obtain ⟨q, hq, heq⟩ := h
      rw [Prod.mk.injEq] at heq
      obtain ⟨hi, ha⟩ := heq
      subst hi; subst ha
      have hrest := ih hq hk
      simp [List.set, findKey, hb, hrest]

theorem eraseIdx_set_same : ∀ (l : List α) (i : Nat) (x : α),
    (l.set i x).eraseIdx i = l.eraseIdx i := by
  intro l
  induction l with
  | nil => intro i x; rfl
  | cons b rest ih =>
    intro i x
    cases i with
    | zero => rfl
    | succ j => simp [List.set, List.eraseIdx, ih]

theorem removeWalk_length : ∀ (off : Nat) (l : List (Alloc K)) (log : List Nat),
    (removeWalk off l log).1.length = l.length := by
  intro off l
  induction l generalizing off with
  | nil => intro log; rfl
  | cons b rest ih =>
    intro log
    unfold removeWalk
    split
    · simp [ih]
    · rfl

theorem removeWalk_log_mem : ∀ (off : Nat) (l : List (Alloc K)) (log : List Nat) (x : Nat),
    x ∈ (removeWalk off l log).2 →
    x ∈ log ∨ ∃ b ∈ l, ∃ hb, b.buffer = some hb ∧ hb.id = x := by
  intro off l
  induction l generalizing off with
  | nil => intro log x hx; exact Or.inl hx
  | cons b rest ih =>
    intro log x hx
    unfold removeWalk at hx
    split at hx
    · rcases ih b.offset (destroyIds b.buffer log) x hx with hlog | ⟨c, hc, hb2, hbuf, hid⟩
      · unfold destroyIds at hlog
        cases hbb : b.buffer with
        | none => rw [hbb] at hlog; exact Or.inl hlog
        | some hb =>
          rw [hbb] at hlog
          rcases List.mem_append.mp hlog with h1 | h2
          · exact Or.inl h1
          · refine Or.inr ⟨b, List.mem_cons_self .., hb, hbb, ?_⟩
            exact (List.mem_singleton.mp h2).symm
      · exact Or.inr ⟨c, List.mem_cons_of_mem _ hc, hb2, hbuf, hid⟩
    · exact Or.inl hx

/-! ### C10, C9, C8, C7: release handler, removal, acquisition, growth -/

/-- C10 (confirmed): delivering the release notification bound to flag cell
`f` is idempotent — any number of deliveries equals one — and its effect on
each table entry is exactly `releaseFlag`: an allocation whose shared cell is
`f` gets `free := true` stored (never the reverse), and every allocation bound
to a different cell is untouched. -/
theorem c10_release_event (f : Nat) (p : Pool K) :
    deliverRelease f (deliverRelease f p) = deliverRelease f p ∧
    ∀ i a, p.bufferList.get? i = some a →
      (deliverRelease f p).bufferList.get? i =
        some (if a.flagId = f then { a with free := true } else a) := by
  constructor
  · unfold deliverRelease
    have hl : (p.bufferList.map (releaseFlag f)).map (releaseFlag f)
        = p.bufferList.map (releaseFlag f) := by
      rw [List.map_map]
      exact List.map_congr_left fun a _ => by
        simp only [Function.comp_apply, releaseFlag_idem]
    exact congrArg (fun x => { p with bufferList := x }) hl
  · intro i a ha
    unfold deliverRelease
    simp only [List.get?_map, ha, Option.map_some']
    rfl

/-- C10 witness: the general theorem applied to the one-allocation pool
`poolOne` and its release flag 0. -/
theorem c10_release_event_witness :
    deliverRelease 0 (deliverRelease 0 poolOne) = deliverRelease 0 poolOne ∧
    (deliverRelease 0 poolOne).bufferList.get? 0 =
      some (if allocK0.flagId = 0 then { allocK0 with free := true } else allocK0) :=
  ⟨(c10_release_event 0 poolOne).1, (c10_release_event 0 poolOne).2 0 allocK0 rfl⟩

/-- C9 (confirmed): `remove` performs no busy-flag check on the allocation it
removes.  If the first allocation with the key is busy, the removal result is
identical to removing the same allocation marked free, the table shrinks by
one entry, and the removed allocation's own handle id is never passed to
`destroy` (only shifted later allocations' handles are destroyed). -/
theorem c9_remove_ignores_busy [DecidableEq K] (key : K) (p : Pool K) (i : Nat)
    (a : Alloc K) (hf : findKey key p.bufferList = some (i, a)) (hbusy : a.free = false) :
    remove key { p with bufferList := p.bufferList.set i { a with free := true } } =
      remove key p ∧
    (remove key p).bufferList.length + 1 = p.bufferList.length ∧
    ∀ hb, a.buffer = some hb → hb.id ∉ p.log →
      hb.id ∉ (p.bufferList.eraseIdx i).filterMap (fun b => Option.map Handle.id b.buffer) →
      hb.id ∉ (remove key p).log := by
  refine ⟨?_, ?_, ?_⟩
  · have hset := findKey_set hf (rfl : ({ a with free := true } : Alloc K).key = a.key)
    simp only [remove, hset, hf, eraseIdx_set_same]
  · obtain ⟨hg, -⟩ := findKey_some hf
    have hlt : i < p.bufferList.length := (List.get?_eq_some.mp hg).1
    simp only [remove, hf, removeWalk_length, List.length_eraseIdx]
    simp [hlt]
    omega
  · intro hb hbuf hnot hnotother hmem
    simp only [remove, hf] at hmem
    rcases removeWalk_log_mem _ _ _ _ hmem with h1 | ⟨b, hbmem, hb2, hbuf2, hid⟩
    · exact hnot h1
    · exact hnotother (List.mem_filterMap.mpr ⟨b, hbmem, by rw [hbuf2, Option.map_some', hid]⟩)

/-- Two-allocation pool used to instantiate the removal theorem: key 0 busy
with handle id 0, key 1 free at offset 20 with handle id 1. -/
def poolPair : Pool Nat :=
  ⟨[allocA, ⟨true, 1, 16, 0, 20, some ⟨1, 20, 4, 4, 4, 0, 1⟩, 0, 1⟩], 40, 1000, 2, 2, []⟩

/-- C9 witness: removing the busy key 0 of `poolPair` behaves exactly as if it
were free, shrinks the table, and never destroys handle id 0. -/
theorem c9_remove_ignores_busy_witness :
    remove 0 { poolPair with bufferList := poolPair.bufferList.set 0 { allocA with free := true } } =
      remove 0 poolPair ∧
    (remove 0 poolPair).bufferList.length + 1 = poolPair.bufferList.length ∧
    (0 : Nat) ∉ (remove 0 poolPair).log := by
  have h := c9_remove_ignores_busy 0 poolPair 0 allocA rfl rfl
  exact ⟨h.1, h.2.1, h.2.2 ⟨0, 0, 4, 4, 4, 0, 0⟩ rfl (by decide) (by decide)⟩

/-- C7 (amended, proved): after every successful `create_buffer` the committed
length of the raw region covers the returned allocation's `used` bytes,
`committed_size >= offset + size` — the growth step guarantees the used range,
not the full padded capacity (see the counterexample). -/
theorem c7_success_covers_used [DecidableEq K] (width height bpp : Nat) (key : K)
    (fmt : Nat) (p p2 : Pool K) (off : Nat) (b : Handle)
    (hs : createBuffer width height bpp key fmt p = .success p2 off b) :
    off + width * bpp * height ≤ p2.len := by
  simp only [createBuffer] at hs
  repeat' split at hs
  all_goals
    first
      | (rw [CreateResult.success.injEq] at hs
         obtain ⟨hp, hoff, hb⟩ := hs
         subst hp; subst hoff
         dsimp only
         omega)
      | simp at hs

/-- C7 witness: the first creation on the empty pool commits 105 bytes, which
covers the returned offset 0 plus the 100 used bytes. -/
theorem c7_success_covers_used_witness : 0 + 10 * 1 * 10 ≤ poolOne.len :=
  c7_success_covers_used 10 10 1 0 0 pool0 poolOne 0 ⟨0, 0, 10, 10, 10, 0, 0⟩ (by decide)

/-- C8 (amended, proved): `acquire_buffer` fails `InvalidKey` exactly when no
allocation has the key and `InUse` exactly when the first allocation with the
key is busy; for a free allocation it returns the allocation's offset and
capacity and sets only that allocation's flag to busy — provided the range
`[offset, offset + capacity)` lies inside the committed region, without which
the slice indexing panics (see the counterexample). -/
theorem c8_acquire_cases [DecidableEq K] (key : K) (p : Pool K) :
    (acquireBuffer key p = .invalidKey ↔ ∀ a ∈ p.bufferList, a.key ≠ key) ∧
    (acquireBuffer key p = .inUse ↔
      ∃ i a, findKey key p.bufferList = some (i, a) ∧ a.free = false) ∧
    ∀ i a, findKey key p.bufferList = some (i, a) → a.free = true →
      (a.offset + a.size ≤ p.len →
        acquireBuffer key p =
          .ok { p with bufferList := p.bufferList.set i { a with free := false } }
            a.offset a.size) ∧
      (p.len < a.offset + a.size → acquireBuffer key p = .panic) := by
  unfold acquireBuffer
  cases hf : findKey key p.bufferList with
  | none =>
    refine ⟨?_, ?_, ?_⟩
    · exact iff_of_true rfl ((findKey_eq_none key p.bufferList).mp hf)
    · simp
    · intro i a hia
      exact absurd hia (by simp)
  | some q =>
    obtain ⟨i0, a0⟩ := q
    obtain ⟨hg, hk⟩ := findKey_some hf
    have hmem : a0 ∈ p.bufferList := List.get?_mem hg
    cases hfa : a0.free with
    | false =>
      refine ⟨?_, ?_, ?_⟩
      · exact iff_of_false (by simp [hfa]) (fun hall => hall a0 hmem hk)
      · simp only [hfa]
        exact iff_of_true (by simp) ⟨i0, a0, rfl, hfa⟩
      · intro j b hjb hbfree
        rw [Option.some.injEq, Prod.mk.injEq] at hjb
        obtain ⟨hj, hb⟩ := hjb
        subst hj; subst hb
        rw [hfa] at hbfree
        cases hbfree
    | true =>
      refine ⟨?_, ?_, ?_⟩
      · refine iff_of_false ?_ (fun hall => hall a0 hmem hk)
        by_cases hlen : p.len < a0.offset + a0.size <;> simp [hfa, hlen]
      · refine iff_of_false ?_ ?_
        · by_cases hlen : p.len < a0.offset + a0.size <;> simp [hfa, hlen]
        · rintro ⟨j, b, hjb, hbfree⟩
          rw [Option.some.injEq, Prod.mk.injEq] at hjb
          obtain ⟨hj, hb⟩ := hjb
          subst hb
          rw [hfa] at hbfree
          cases hbfree
      · intro j b hjb hbfree
        rw [Option.some.injEq, Prod.mk.injEq] at hjb
        obtain ⟨hj, hb⟩ := hjb
        subst hj; subst hb
        constructor
        · intro hle
          simp [hfa, Nat.not_lt.mpr hle]
        · intro hlt
          simp [hfa, hlt]

/-- C8 witness: acquiring free key 1 of `poolPair` (range `[20, 36)` inside
the 40-byte region) claims it and returns offset 20 and length 16. -/
theorem c8_acquire_cases_witness :
    acquireBuffer 1 poolPair =
      .ok { poolPair with
              bufferList := poolPair.bufferList.set 1
                { (⟨true, 1, 16, 0, 20, some ⟨1, 20, 4, 4, 4, 0, 1⟩, 0, 1⟩ : Alloc Nat) with
                    free := false } }
        20 16 :=
  (((c8_acquire_cases 1 poolPair).2.2 1
      ⟨true, 1, 16, 0, 20, some ⟨1, 20, 4, 4, 4, 0, 1⟩, 0, 1⟩ rfl rfl).1 (by decide))

/-! ### Lemmas about the scan loop of `create_buffer` -/

theorem sumSizes_cons (a : Alloc K) (l : List (Alloc K)) :
    sumSizes (a :: l) = a.size + sumSizes l := by
  simp [sumSizes]

theorem scan_found_true [DecidableEq K] (key : K) (size : Nat) :
    ∀ (l : List (Alloc K)) (off : Nat) (idx : Option Nat) (i : Nat) (log : List Nat),
      (scan key size l off true idx i log).found = true := by
  intro l
  induction l with
  | nil => intro off idx i log; rfl
  | cons bh rest ih =>
    intro off idx i log
    simp only [scan]
    by_cases hkey : bh.key = key
    · simp only [if_pos hkey]
      by_cases hfree : bh.free <;> simp [hfree, ih]
    · simp only [if_neg hkey]
      by_cases hoff : bh.offset < off
      · simp only [if_pos hoff]
        by_cases hfree : bh.free <;> simp [hfree, ih]
      · simp [hoff]

theorem scan_found_of_mem [DecidableEq K] (key : K) (size : Nat) :
    ∀ (l : List (Alloc K)) (off : Nat) (idx : Option Nat) (i : Nat) (log : List Nat),
      (∃ a ∈ l, a.key = key) →
      (scan key size l off false idx i log).found = true := by
  intro l
  induction l with
  | nil =>
    intro off idx i log hmem
    obtain ⟨a, ha, -⟩ := hmem
    cases ha
  | cons bh rest ih =>
    intro off idx i log hmem
    simp only [scan]
    by_cases hkey : bh.key = key
    · simp only [if_pos hkey]
      by_cases hfree : bh.free <;> simp [hfree, scan_found_true]
    · have hrest : ∃ a ∈ rest, a.key = key := by
        obtain ⟨a, ha, hak⟩ := hmem
        rcases List.mem_cons.mp ha with h | h
        · rw [h] at hak; exact absurd hak hkey
        · exact ⟨a, h, hak⟩
      simp only [if_neg hkey]
      by_cases hoff : bh.offset < off
      · simp only [if_pos hoff]
        by_cases hfree : bh.free <;> simp [hfree, ih _ _ _ _ hrest]
      · simp [hoff, ih _ _ _ _ hrest]

theorem scan_index_none [DecidableEq K] (key : K) (size : Nat) :
    ∀ (l : List (Alloc K)) (off : Nat) (found : Bool) (i : Nat) (log : List Nat),
      (∀ a ∈ l, a.key = key → a.free = false) →
      (scan key size l off found none i log).index = none := by
  intro l
  induction l with
  | nil => intro off found i log hall; rfl
  | cons bh rest ih =>
    intro off found i log hall
    have hallrest : ∀ a ∈ rest, a.key = key → a.free = false :=
      fun a ha hk => hall a (List.mem_cons_of_mem _ ha) hk
    simp only [scan]
    by_cases hkey : bh.key = key
    · have hbf : bh.free = false := hall bh (List.mem_cons_self ..) hkey
      simp [hkey, hbf, ih _ _ _ _ hallrest]
    · simp only [if_neg hkey]
      by_cases hoff : bh.offset < off
      · simp only [if_pos hoff]
        by_cases hfree : bh.free <;> simp [hfree, ih _ _ _ _ hallrest]
      · cases hfnd : found <;> simp [hoff, ih _ _ _ _ hallrest]

theorem scan_not_found [DecidableEq K] (key : K) (size : Nat) :
    ∀ (l : List (Alloc K)) (off : Nat) (i : Nat) (log : List Nat),
      (∀ a ∈ l, a.key ≠ key) →
      (scan key size l off false none i log).found = false ∧
      (scan key size l off false none i log).index = none ∧
      (scan key size l off false none i log).offset = off + sumSizes l ∧
      (scan key size l off false none i log).list.map (fun a => a.size) =
        l.map (fun a => a.size) := by
  intro l
  induction l with
  | nil =>
    intro off i log hall
    refine ⟨rfl, rfl, ?_, rfl⟩
    simp [scan, sumSizes]
  | cons bh rest ih =>
    intro off i log hall
    have hkey : ¬bh.key = key := hall bh (List.mem_cons_self ..)
    have hallrest : ∀ a ∈ rest, a.key ≠ key :=
      fun a ha => hall a (List.mem_cons_of_mem _ ha)
    have H1 := fun log2 => (ih (off + bh.size) (i + 1) log2 hallrest).1
    have H2 := fun log2 => (ih (off + bh.size) (i + 1) log2 hallrest).2.1
    have H3 := fun log2 => (ih (off + bh.size) (i + 1) log2 hallrest).2.2.1
    have H4 := fun log2 => (ih (off + bh.size) (i + 1) log2 hallrest).2.2.2
    refine ⟨?_, ?_, ?_, ?_⟩ <;>
      by_cases hoff : bh.offset < off <;>
      by_cases hfree : bh.free <;>
      simp [scan, hkey, hoff, hfree, H1, H2, H3, H4, sumSizes_cons] <;>
      omega

theorem growLen_some_ge (p : Pool K) (off size len2 : Nat)
    (hg : growLen p off size = some len2) : off + size ≤ len2 := by
  unfold growLen at hg
  split_ifs at hg with h1 h2
  all_goals injection hg with hg2
  all_goals omega

theorem padAppend_congr (o : Nat) (l1 l2 : List (Alloc K))
    (hm : l1.map (fun a => a.size) = l2.map (fun a => a.size)) :
    padAppend o l1 = padAppend o l2 := by
  unfold padAppend
  have hlast := congrArg List.getLast? hm
  rw [List.getLast?_map, List.getLast?_map] at hlast
  cases h1 : l1.getLast? with
  | none =>
    rw [h1] at hlast
    cases h2 : l2.getLast? with
    | none => rfl
    | some b2 => rw [h2] at hlast; cases hlast
  | some b1 =>
    rw [h1] at hlast
    cases h2 : l2.getLast? with
    | none => rw [h2] at hlast; cases hlast
    | some b2 =>
      rw [h2, Option.map_some', Option.map_some', Option.some.injEq] at hlast
      simp [hlast]

theorem set_length_append (l : List α) (a x : α) :
    (l ++ [a]).set l.length x = l ++ [x] := by
  induction l with
  | nil => rfl
  | cons b rest ih => simp [List.set, ih]

theorem scan_keep [DecidableEq K] (key : K) (size : Nat) (h : Handle) :
    ∀ (l : List (Alloc K)) (off : Nat) (found : Bool) (idx : Option Nat) (i : Nat)
      (log : List Nat),
      (∀ a ∈ l, a.key = key → a.free = true ∧ a.used = size ∧ a.buffer = some h) →
      (scan key size l off found idx i log).index = idx ∨
      (scan key size l off found idx i log).index = none ∨
      ∃ j, i ≤ j ∧ (scan key size l off found idx i log).index = some j ∧
        ∃ bh2, (scan key size l off found idx i log).list.get? (j - i) = some bh2 ∧
          bh2.buffer = some h := by
  intro l
  induction l with
  | nil => intro off found idx i log hall; exact Or.inl rfl
  | cons bh rest ih =>
    intro off found idx i log hall
    have hallrest : ∀ a ∈ rest, a.key = key →
        a.free = true ∧ a.used = size ∧ a.buffer = some h :=
      fun a ha hk => hall a (List.mem_cons_of_mem _ ha) hk
    by_cases hkey : bh.key = key
    · obtain ⟨hfree, hused, hbuf⟩ := hall bh (List.mem_cons_self ..) hkey
      have hstep : scan key size (bh :: rest) off found idx i log =
          { scan key size rest (off + max bh.size (padSize size)) true (some i) (i + 1) log with
              list :=
                { bh with buffer := some h, size := max bh.size (padSize size), used := size } ::
                  (scan key size rest (off + max bh.size (padSize size)) true (some i) (i + 1)
                    log).list } := by
        simp [scan, hkey, hfree, hused, hbuf]
      rw [hstep]
      dsimp only
      rcases ih (off + max bh.size (padSize size)) true (some i) (i + 1) log hallrest with
        h1 | h1 | ⟨j, hij, hidx2, bh3, hget, hb3⟩
      · refine Or.inr (Or.inr ⟨i, Nat.le_refl i, h1, ?_⟩)
        refine ⟨{ bh with buffer := some h, size := max bh.size (padSize size), used := size },
          ?_, rfl⟩
        rw [Nat.sub_self]
        exact List.get?_cons_zero
      · exact Or.inr (Or.inl h1)
      · refine Or.inr (Or.inr ⟨j, by omega, hidx2, bh3, ?_, hb3⟩)
        have hj : j - i = (j - (i + 1)) + 1 := by omega
        rw [hj, List.get?_cons_succ]
        exact hget
    · by_cases hoff : bh.offset < off
      · by_cases hfree : bh.free
        · have hstep : scan key size (bh :: rest) off found idx i log =
              { scan key size rest (off + bh.size) found idx (i + 1)
                  (if off = bh.offset then log else destroyIds bh.buffer log) with
                  list :=
                    { bh with buffer := (if off = bh.offset then bh.buffer else none), offset := off } ::
                      (scan key size rest (off + bh.size) found idx (i + 1)
                        (if off = bh.offset then log else destroyIds bh.buffer log)).list } := by
            simp [scan, hkey, hoff, hfree]
          rw [hstep]
          dsimp only
          rcases ih (off + bh.size) found idx (i + 1)
              (if off = bh.offset then log else destroyIds bh.buffer log) hallrest with
            h1 | h1 | ⟨j, hij, hidx2, bh3, hget, hb3⟩
          · exact Or.inl h1
          · exact Or.inr (Or.inl h1)
          · refine Or.inr (Or.inr ⟨j, by omega, hidx2, bh3, ?_, hb3⟩)
            have hj : j - i = (j - (i + 1)) + 1 := by omega
            rw [hj, List.get?_cons_succ]
            exact hget
        · have hstep : scan key size (bh :: rest) off found idx i log =
              { scan key size rest (off + bh.size) found none (i + 1) log with
                  list :=
                    bh :: (scan key size rest (off + bh.size) found none (i + 1) log).list } := by
            simp [scan, hkey, hoff, hfree]
          rw [hstep]
          dsimp only
          rcases ih (off + bh.size) found none (i + 1) log hallrest with
            h1 | h1 | ⟨j, hij, hidx2, bh3, hget, hb3⟩
          · exact Or.inr (Or.inl h1)
          · exact Or.inr (Or.inl h1)
          · refine Or.inr (Or.inr ⟨j, by omega, hidx2, bh3, ?_, hb3⟩)
            have hj : j - i = (j - (i + 1)) + 1 := by omega
            rw [hj, List.get?_cons_succ]
            exact hget
      · cases hfnd : found
        · have hstep : scan key size (bh :: rest) off false idx i log =
              { scan key size rest (off + bh.size) false idx (i + 1) log with
                  list :=
                    bh :: (scan key size rest (off + bh.size) false idx (i + 1) log).list } := by
            simp [scan, hkey, hoff]
          rw [hstep]
          dsimp only
          rcases ih (off + bh.size) false idx (i + 1) log hallrest with
            h1 | h1 | ⟨j, hij, hidx2, bh3, hget, hb3⟩
          · exact Or.inl h1
          · exact Or.inr (Or.inl h1)
          · refine Or.inr (Or.inr ⟨j, by omega, hidx2, bh3, ?_, hb3⟩)
            have hj : j - i = (j - (i + 1)) + 1 := by omega
            rw [hj, List.get?_cons_succ]
            exact hget
        · have hstep : scan key size (bh :: rest) off true idx i log =
              ⟨bh :: rest, off, true, idx, log⟩ := by
            simp [scan, hkey, hoff]
          rw [hstep]
          exact Or.inl rfl

/-! ### C5, C6, C4: the amended claims about `create_buffer` -/

/-- C5 (amended, proved): whenever the allocation carrying the requested key
is busy, `create_buffer` fails (`InUse` / `None`) — but a failing call does
not always leave the table untouched: a failure caused by a busy allocation
that would need shifting can occur after the matching allocation was already
resized (see the counterexample). -/
theorem c5_busy_key_fails [DecidableEq K] (width height bpp : Nat) (key : K) (fmt : Nat)
    (p : Pool K)
    (hw : width ≤ MAX) (hh : height ≤ MAX) (hbp : bpp ≤ MAX)
    (hstride : width * bpp ≤ MAX) (hws : width ≤ width * bpp)
    (hsize : width * bpp * height ≤ MAX)
    (hmem : ∃ a ∈ p.bufferList, a.key = key)
    (hbusy : ∀ a ∈ p.bufferList, a.key = key → a.free = false) :
    ∃ p2, createBuffer width height bpp key fmt p = .fail p2 := by
  have h1 : ¬(MAX < width ∨ MAX < height ∨ MAX < bpp) := by omega
  have h2 : ¬MAX < width * bpp := by omega
  have h3 : ¬width * bpp < width := by omega
  have h4 : ¬MAX < width * bpp * height := by omega
  have hfound :=
    scan_found_of_mem key (width * bpp * height) p.bufferList 0 none 0 p.log hmem
  have hidx :=
    scan_index_none key (width * bpp * height) p.bufferList 0 false 0 p.log hbusy
  refine ⟨{ p with
      bufferList := (scan key (width * bpp * height) p.bufferList 0 false none 0 p.log).list,
      log := (scan key (width * bpp * height) p.bufferList 0 false none 0 p.log).log }, ?_⟩
  simp only [createBuffer, if_neg h1, if_neg h2, if_neg h3, if_neg h4, if_pos hfound, hidx]

/-- C5 witness: repeating the call that made key 0 busy fails. -/
theorem c5_busy_key_fails_witness :
    ∃ p2, createBuffer 10 10 1 0 0 poolOne = .fail p2 :=
  c5_busy_key_fails 10 10 1 0 0 poolOne (by decide) (by decide) (by decide) (by decide)
    (by decide) (by decide) ⟨allocK0, by decide, by decide⟩ (by decide)

/-- C6 (amended, proved): when the allocation for the key is free, holds a
live handle `h`, and its `used` equals the requested byte size, a successful
`create_buffer` returns that very handle `h` unchanged — regardless of whether
the requested width, height or format still match the tuple `h` was created
with (the code compares only `size` against `used`; see the counterexample). -/
theorem c6_handle_reuse [DecidableEq K] (width height bpp : Nat) (key : K) (fmt : Nat)
    (p : Pool K) (h : Handle)
    (hw : width ≤ MAX) (hh : height ≤ MAX) (hbp : bpp ≤ MAX)
    (hstride : width * bpp ≤ MAX) (hws : width ≤ width * bpp)
    (hsize : width * bpp * height ≤ MAX)
    (hmem : ∃ a ∈ p.bufferList, a.key = key)
    (hall : ∀ a ∈ p.bufferList, a.key = key →
      a.free = true ∧ a.used = width * bpp * height ∧ a.buffer = some h) :
    (∃ p2, createBuffer width height bpp key fmt p = .fail p2) ∨
    ∃ p2 off, createBuffer width height bpp key fmt p = .success p2 off h := by
  have h1 : ¬(MAX < width ∨ MAX < height ∨ MAX < bpp) := by omega
  have h2 : ¬MAX < width * bpp := by omega
  have h3 : ¬width * bpp < width := by omega
  have h4 : ¬MAX < width * bpp * height := by omega
  have hfound :=
    scan_found_of_mem key (width * bpp * height) p.bufferList 0 none 0 p.log hmem
  rcases scan_keep key (width * bpp * height) h p.bufferList 0 false none 0 p.log hall with
    hidx | hidx | ⟨j, hij, hidx, bh2, hget, hb2⟩
  · left
    refine ⟨{ p with
        bufferList := (scan key (width * bpp * height) p.bufferList 0 false none 0 p.log).list,
        log := (scan key (width * bpp * height) p.bufferList 0 false none 0 p.log).log }, ?_⟩
    simp only [createBuffer, if_neg h1, if_neg h2, if_neg h3, if_neg h4, if_pos hfound, hidx]
  · left
    refine ⟨{ p with
        bufferList := (scan key (width * bpp * height) p.bufferList 0 false none 0 p.log).list,
        log := (scan key (width * bpp * height) p.bufferList 0 false none 0 p.log).log }, ?_⟩
    simp only [createBuffer, if_neg h1, if_neg h2, if_neg h3, if_neg h4, if_pos hfound, hidx]
  · have hget0 :
        (scan key (width * bpp * height) p.bufferList 0 false none 0 p.log).list.get? j =
          some bh2 := by
      simpa using hget
    rcases hgl : growLen p bh2.offset (width * bpp * height) with _ | len2
    · left
      refine ⟨{ p with
          bufferList := (scan key (width * bpp * height) p.bufferList 0 false none 0 p.log).list,
          log := (scan key (width * bpp * height) p.bufferList 0 false none 0 p.log).log }, ?_⟩
      simp only [createBuffer, if_neg h1, if_neg h2, if_neg h3, if_neg h4, if_pos hfound,
        hidx, hget0, hgl]
    · right
      have hge := growLen_some_ge p bh2.offset (width * bpp * height) len2 hgl
      have hnp : ¬len2 < bh2.offset + width * bpp * height := by omega
      refine ⟨{ p with
          bufferList :=
            (scan key (width * bpp * height) p.bufferList 0 false none 0 p.log).list.set j
              { bh2 with free := false },
          len := len2,
          log := (scan key (width * bpp * height) p.bufferList 0 false none 0 p.log).log },
        bh2.offset, ?_⟩
      simp only [createBuffer, if_neg h1, if_neg h2, if_neg h3, if_neg h4, if_pos hfound,
        hidx, hget0, hgl, hb2, if_neg hnp]

/-- C6 witness: the stale-handle scenario of the counterexample instantiates
the theorem — the returned handle is forced to be the old handle id 1. -/
theorem c6_handle_reuse_witness :
    (∃ p2, createBuffer 20 5 1 0 7 (deliverRelease 0 poolRebound) = .fail p2) ∨
    ∃ p2 off, createBuffer 20 5 1 0 7 (deliverRelease 0 poolRebound) =
      .success p2 off ⟨1, 0, 10, 10, 10, 0, 0⟩ :=
  c6_handle_reuse 20 5 1 0 7 (deliverRelease 0 poolRebound) ⟨1, 0, 10, 10, 10, 0, 0⟩
    (by decide) (by decide) (by decide) (by decide) (by decide) (by decide)
    ⟨⟨true, 0, 108, 100, 0, some ⟨1, 0, 10, 10, 10, 0, 0⟩, 0, 0⟩, by decide, by decide⟩
    (by decide)

/-- C4 (amended, proved): a successful `create_buffer` for a key absent from
the table appends a fresh allocation whose offset is `appendOffset`: the sum
of all existing capacities, plus — when the table is non-empty — 5% of the
last allocation's capacity and then `4 - offset % 4` more bytes (a strict
bump to the next 4-byte multiple even when already aligned).  The new
allocation's capacity equals `size` but its `used` field is `0`, not `size`,
and its handle is freshly bound to the current request. -/
theorem c4_append_shape [DecidableEq K] (width height bpp : Nat) (key : K) (fmt : Nat)
    (p : Pool K)
    (hw : width ≤ MAX) (hh : height ≤ MAX) (hbp : bpp ≤ MAX)
    (hstride : width * bpp ≤ MAX) (hws : width ≤ width * bpp)
    (hsize : width * bpp * height ≤ MAX)
    (hnone : ∀ a ∈ p.bufferList, a.key ≠ key) :
    ∀ p2 off b, createBuffer width height bpp key fmt p = .success p2 off b →
      off = appendOffset p.bufferList ∧
      b = ⟨p.nextId, off, width, height, width * bpp, fmt, p.nextFlag⟩ ∧
      ∃ l2, l2.length = p.bufferList.length ∧
        p2.bufferList =
          l2 ++ [⟨false, p.nextFlag, width * bpp * height, 0, off, some b, fmt, key⟩] := by
  intro p2 off b hs
  have h1 : ¬(MAX < width ∨ MAX < height ∨ MAX < bpp) := by omega
  have h2 : ¬MAX < width * bpp := by omega
  have h3 : ¬width * bpp < width := by omega
  have h4 : ¬MAX < width * bpp * height := by omega
  obtain ⟨hfnd, hidx, hoffs, hmap⟩ :=
    scan_not_found key (width * bpp * height) p.bufferList 0 0 p.log hnone
  have hfnd2 :
      ¬(scan key (width * bpp * height) p.bufferList 0 false none 0 p.log).found = true := by
    simp [hfnd]
  have hisnone :
      (scan key (width * bpp * height) p.bufferList 0 false none 0 p.log).index.isNone =
        true := by
    simp [hidx]
  have hlen2 :
      (scan key (width * bpp * height) p.bufferList 0 false none 0 p.log).list.length =
        p.bufferList.length := by
    have hml := congrArg List.length hmap
    simpa using hml
  have hpad :
      padAppend (scan key (width * bpp * height) p.bufferList 0 false none 0 p.log).offset
          (scan key (width * bpp * height) p.bufferList 0 false none 0 p.log).list =
        appendOffset p.bufferList := by
    rw [hoffs, Nat.zero_add]
    exact padAppend_congr _ _ _ hmap
  simp only [createBuffer, if_neg h1, if_neg h2, if_neg h3, if_neg h4, if_neg hfnd2,
    hpad] at hs
  rcases hgl : growLen p (appendOffset p.bufferList) (width * bpp * height) with _ | len2
  · rw [hgl] at hs
    simp at hs
  · have hge := growLen_some_ge p (appendOffset p.bufferList) (width * bpp * height) len2 hgl
    have hnp : ¬len2 < appendOffset p.bufferList + width * bpp * height := by omega
    simp only [hgl, hisnone, eq_self_iff_true, if_true, if_neg hnp] at hs
    rw [CreateResult.success.injEq] at hs
    obtain ⟨hp2, hoff, hb⟩ := hs
    subst hp2
    subst hoff
    subst hb
    refine ⟨rfl, rfl,
      (scan key (width * bpp * height) p.bufferList 0 false none 0 p.log).list, hlen2, ?_⟩
    simp only [set_length_append]

/-- C4 witness: the very first creation on the empty pool yields offset
`appendOffset [] = 0`, a fresh handle bound to the request, and a table that
is the (empty) scanned table plus one appended allocation with capacity 16
and `used = 0`. -/
theorem c4_append_shape_witness :
    0 = appendOffset pool0.bufferList ∧
    (⟨0, 0, 4, 4, 4, 0, 0⟩ : Handle) = ⟨pool0.nextId, 0, 4, 4, 4 * 1, 0, pool0.nextFlag⟩ ∧
    ∃ l2, l2.length = pool0.bufferList.length ∧
      poolA.bufferList =
        l2 ++ [⟨false, pool0.nextFlag, 4 * 1 * 4, 0, 0, some ⟨0, 0, 4, 4, 4, 0, 0⟩, 0, 0⟩] :=
  c4_append_shape 4 4 1 0 0 pool0 (by decide) (by decide) (by decide) (by decide)
    (by decide) (by decide) (by decide) poolA 0 ⟨0, 0, 4, 4, 4, 0, 0⟩ (by decide)
